import Mathlib

set_option maxRecDepth 100000

/-!
Verification of the virtual file system, stream framer, payload decoder and
task lifecycle of the Quantum Studio v2 application (`App.tsx`).

The TypeScript source is shallowly embedded: the in-memory file-system tree
becomes an inductive `FSNode` whose folder children are an association list
mirroring a JavaScript object (string keys, insertion order, assignment
updates in place or appends); in-place mutation through the object reference
returned by `traversePath` is rendered as a continuation-passing walk
(`walkParent`) that rebuilds the tree along the traversed path, preserving
any intermediate folders the source creates before a later failure.
-/

namespace QS

/-- File-system node, mirroring `FileSystemNode` of the app: a file with text
content or a folder whose children map names to nodes.  Children are kept as
an association list in JavaScript object insertion order. -/
inductive FSNode where
  | file (content : String)
  | folder (children : List (String × FSNode))

/-- Lookup of `children[name]` on a JavaScript object: first entry wins. -/
def getChild : List (String × FSNode) → String → Option FSNode
  | [], _ => none
  | (n, v) :: rest, k => if n = k then some v else getChild rest k

/-- Assignment `children[name] = node` on a JavaScript object: replaces the
existing entry in place, otherwise appends at the end. -/
def setChild : List (String × FSNode) → String → FSNode → List (String × FSNode)
  | [], k, v => [(k, v)]
  | (n, w) :: rest, k, v =>
      if n = k then (n, v) :: rest else (n, w) :: setChild rest k v

/-- Deletion `delete children[name]` on a JavaScript object. -/
def delChild : List (String × FSNode) → String → List (String × FSNode)
  | [], _ => []
  | (n, w) :: rest, k => if n = k then rest else (n, w) :: delChild rest k

/-- Splitting a list of characters at a separator character, as
`path.split(sep)` does in JavaScript (empty input yields one empty field). -/
def splitChar (sep : Char) : List Char → List (List Char)
  | [] => [[]]
  | c :: r =>
      let rest := splitChar sep r
      if c = sep then [] :: rest
      else
        match rest with
        | s :: tl => (c :: s) :: tl
        | [] => [[c]]

/-- Path components: `path.split('/').filter(p => p)` from `traversePath`
(App.tsx line 75); empty components are discarded. -/
def splitPath (path : String) : List String :=
  ((splitChar '/' path.data).map (fun cs => String.mk cs)).filter (fun s => s ≠ "")

/-- Continuation-passing rendering of `traversePath` (App.tsx lines 74-93)
followed by the caller's mutation of `parent.children[key]`.

The walk descends the intermediate components exactly as the source loop
does: a component whose node is missing is synthesised as an empty folder
when `createParents` is set (and the synthesised folder is kept in the
returned tree even if a later component fails, as the in-place JavaScript
mutation would); a component resolving to a file, or missing without
`createParents`, fails.  On reaching the final component with the current
node a folder — the source's `parent` — the continuation `k` receives the
parent's children and the final key and returns the updated children
together with a result value; `none` in the second component of the result
means the source returned `parent = null` and the caller's mutation never
ran. -/
def walkParent {α : Type} (k : List (String × FSNode) → String → List (String × FSNode) × α) :
    FSNode → List String → Bool → FSNode × Option α
  | n, [], _ => (n, none)
  | FSNode.file c, _ :: _, _ => (FSNode.file c, none)
  | FSNode.folder ch, [key], _ =>
      let r := k ch key
      (FSNode.folder r.1, some r.2)
  | FSNode.folder ch, part :: p2 :: rest, cp =>
      match getChild ch part with
      | some c =>
          let r := walkParent k c (p2 :: rest) cp
          (FSNode.folder (setChild ch part r.1), r.2)
      | none =>
          if cp then
            let r := walkParent k (FSNode.folder []) (p2 :: rest) cp
            (FSNode.folder (setChild ch part r.1), r.2)
          else (FSNode.folder ch, none)

/-- File operation record as decoded from the model's JSON and typed by the
application (`FileOperation` in `types.ts`, reconstructed from its uses in
`App.tsx` and §3 of the design: an `operation` tag, a `path`, and optional
`content` and `newPath`).  Fields that are absent in the decoded JSON (or
hold a value outside the declared string type) are `none`. -/
structure FileOperation where
  operation : Option String := none
  path : Option String := none
  content : Option String := none
  newPath : Option String := none
  deriving Repr

/-- Application of one operation of a batch: one arm of the `switch` in
`applyFileOperations` (App.tsx lines 97-128) together with its enclosing
per-operation `try`/`catch`.  The returned flag is `false` exactly when the
source throws (and the catch logs and skips); the returned tree keeps every
mutation performed before the throw, as the in-place source does — in
particular a failing rename has already deleted its source node. -/
def applyOp (tree : FSNode) (op : FileOperation) : FSNode × Bool :=
  if op.operation = some "CREATE_FILE" ∨ op.operation = some "UPDATE_FILE" then
    match op.path with
    | none => (tree, false)
    | some p =>
        let r := walkParent
          (fun ch key => (setChild ch key (FSNode.file (op.content.getD "")), ()))
          tree (splitPath p) true
        (r.1, r.2.isSome)
  else if op.operation = some "CREATE_FOLDER" then
    match op.path with
    | none => (tree, false)
    | some p =>
        let r := walkParent
          (fun ch key =>
            (match getChild ch key with
             | some _ => ch
             | none => setChild ch key (FSNode.folder []), ()))
          tree (splitPath p) true
        (r.1, r.2.isSome)
  else if op.operation = some "DELETE_FILE" ∨ op.operation = some "DELETE_FOLDER" then
    match op.path with
    | none => (tree, false)
    | some p =>
        let r := walkParent
          (fun ch key => (if (getChild ch key).isSome then delChild ch key else ch, ()))
          tree (splitPath p) false
        (r.1, true)
  else if op.operation = some "RENAME_FILE" ∨ op.operation = some "RENAME_FOLDER" then
    match op.newPath with
    | none => (tree, false)
    | some np =>
        if np = "" then (tree, false)
        else
          match op.path with
          | none => (tree, false)
          | some p =>
              let r1 := walkParent
                (fun ch key =>
                  match getChild ch key with
                  | some n => (delChild ch key, some n)
                  | none => (ch, (none : Option FSNode)))
                tree (splitPath p) false
              match r1.2 with
              | none => (r1.1, false)
              | some none => (r1.1, false)
              | some (some moved) =>
                  let r2 := walkParent
                    (fun ch key => (setChild ch key moved, ()))
                    r1.1 (splitPath np) true
                  (r2.1, r2.2.isSome)
  else (tree, true)

/-- Batch application `applyFileOperations` (App.tsx lines 95-131): a deep
clone of the tree (`JSON.parse(JSON.stringify(tree))`, the identity on this
pure data) mutated by each operation in list order, failed operations
skipped by the per-operation catch. -/
def applyFileOperations (tree : FSNode) (operations : List FileOperation) : FSNode :=
  operations.foldl (fun t op => (applyOp t op).1) tree

/-- Recursive core of `findNodeByPath` (App.tsx lines 133-141). -/
def findGo : List String → FSNode → Option FSNode
  | [], t => some t
  | p :: rest, FSNode.folder ch =>
      match getChild ch p with
      | some c => findGo rest c
      | none => none
  | _ :: _, FSNode.file _ => none

/-- Resolution `findNodeByPath(path, tree)` (App.tsx lines 133-141): walks
the components requiring a folder with the named child at every step. -/
def findNodeByPath (path : String) (tree : FSNode) : Option FSNode :=
  findGo (splitPath path) tree

/-- Observation used to distinguish trees without deciding full equality. -/
def hasChild (t : FSNode) (name : String) : Bool :=
  match t with
  | FSNode.folder ch => (getChild ch name).isSome
  | FSNode.file _ => false

/-- Whether an operation record is one of the two rename operations. -/
def isRenameOp (op : FileOperation) : Bool :=
  op.operation = some "RENAME_FILE" ∨ op.operation = some "RENAME_FOLDER"

/-- Character list of a string literal. -/
def strL (s : String) : List Char := s.data

/-- First index of `needle` in `hay`, as JavaScript `hay.indexOf(needle)`
returns it (with `none` for -1). -/
def strIndexOf : List Char → List Char → Option Nat
  | [], needle => if needle.isPrefixOf ([] : List Char) then some 0 else none
  | c :: t, needle =>
      if needle.isPrefixOf (c :: t) then some 0
      else (strIndexOf t needle).map (fun i => i + 1)

/-- The literal blueprint marker (App.tsx line 227). -/
def blueprintSeparator : List Char := strL "---JSON_BLUEPRINT---"

/-- The literal operations marker (App.tsx line 228). -/
def opsSeparator : List Char := strL "---JSON_OPERATIONS---"

/-- Which of the two mutually exclusive payload kinds a marker announces. -/
inductive PayloadKind where
  | blueprint
  | operations
  deriving DecidableEq

/-- Per-chunk classification of the accumulated response text (App.tsx lines
232-236): the blueprint marker is searched first; the conversational prefix
is everything before the winning marker, or the whole buffer when no marker
has appeared. -/
def frame (acc : List Char) : List Char × Option PayloadKind :=
  match strIndexOf acc blueprintSeparator with
  | some i => (acc.take i, some PayloadKind.blueprint)
  | none =>
      match strIndexOf acc opsSeparator with
      | some i => (acc.take i, some PayloadKind.operations)
      | none => (acc, none)

/-- The example stream of claim C5. -/
def t5target : List Char := strL "hello ---JSON_OPERATIONS--- \x7b...\x7d"

/-- First chunk of the witness split of the C5 example stream. -/
def t5chunkA : List Char := strL "hello ---JSON_OPE"

/-- Second chunk of the witness split of the C5 example stream, cutting the
operations marker in half. -/
def t5chunkB : List Char := strL "RATIONS--- \x7b...\x7d"

/-- JSON whitespace, the four characters `JSON.parse` skips between tokens. -/
def jsonWS (c : Char) : Bool := c = ' ' || c = '\t' || c = '\n' || c = '\r'

/-- Skipping JSON whitespace. -/
def skipWS (cs : List Char) : List Char := cs.dropWhile jsonWS

/-- Parsed JSON value as `JSON.parse` produces it.  Numeric literals keep
their source text: no claim depends on numeric value semantics beyond
truthiness, which `numTextIsZero` reads off the literal. -/
inductive JValue where
  | null
  | bool (b : Bool)
  | num (text : String)
  | str (s : String)
  | arr (elems : List JValue)
  | obj (fields : List (String × JValue))

/-- Field lookup on a parsed JSON object. -/
def lookupField : List (String × JValue) → String → Option JValue
  | [], _ => none
  | (n, v) :: rest, k => if n = k then some v else lookupField rest k

/-- Field assignment while building a parsed JSON object: a duplicate key
overwrites the earlier value in place, as `JSON.parse` does. -/
def setField : List (String × JValue) → String → JValue → List (String × JValue)
  | [], k, v => [(k, v)]
  | (n, w) :: rest, k, v =>
      if n = k then (n, v) :: rest else (n, w) :: setField rest k v

/-- Value of a hexadecimal digit. -/
def hexVal (c : Char) : Option Nat :=
  if '0' ≤ c ∧ c ≤ '9' then some (c.toNat - '0'.toNat)
  else if 'a' ≤ c ∧ c ≤ 'f' then some (c.toNat - 'a'.toNat + 10)
  else if 'A' ≤ c ∧ c ≤ 'F' then some (c.toNat - 'A'.toNat + 10)
  else none

/-- Body of a JSON string after its opening quote: returns the decoded
characters and the remainder after the closing quote.  Escapes follow the
JSON grammar; a `\u` escape in the surrogate range is rejected (the
JavaScript engine would build UTF-16 pairs there, outside this model's
scalar characters and never exercised by the claims). -/
def parseStringBody : List Char → Option (List Char × List Char)
  | [] => none
  | c :: r =>
      if c = '"' then some ([], r)
      else if c = '\\' then
        match r with
        | [] => none
        | e :: r2 =>
            if e = '"' ∨ e = '\\' ∨ e = '/' then
              (parseStringBody r2).map (fun pr => (e :: pr.1, pr.2))
            else if e = 'b' then (parseStringBody r2).map (fun pr => ('\x08' :: pr.1, pr.2))
            else if e = 'f' then (parseStringBody r2).map (fun pr => ('\x0c' :: pr.1, pr.2))
            else if e = 'n' then (parseStringBody r2).map (fun pr => ('\n' :: pr.1, pr.2))
            else if e = 'r' then (parseStringBody r2).map (fun pr => ('\x0d' :: pr.1, pr.2))
            else if e = 't' then (parseStringBody r2).map (fun pr => ('\t' :: pr.1, pr.2))
            else if e = 'u' then
              match r2 with
              | a :: b :: c2 :: d :: r3 =>
                  match hexVal a, hexVal b, hexVal c2, hexVal d with
                  | some ha, some hb, some hc, some hd =>
                      let n := ((ha * 16 + hb) * 16 + hc) * 16 + hd
                      if 0xD800 ≤ n ∧ n ≤ 0xDFFF then none
                      else (parseStringBody r3).map (fun pr => (Char.ofNat n :: pr.1, pr.2))
                  | _, _, _, _ => none
              | _ => none
            else none
      else if c.toNat < 0x20 then none
      else (parseStringBody r).map (fun pr => (c :: pr.1, pr.2))

/-- Longest digit run at the head of the input, and the remainder. -/
def digitSpan (cs : List Char) : List Char × List Char :=
  (cs.takeWhile Char.isDigit, cs.dropWhile Char.isDigit)

/-- Optional exponent part of a JSON number literal. -/
def parseExpPart (cs : List Char) : Option (List Char × List Char) :=
  match cs with
  | c :: r =>
      if c = 'e' ∨ c = 'E' then
        let sr : List Char × List Char :=
          match r with
          | s :: r2 => if s = '+' ∨ s = '-' then ([s], r2) else ([], r)
          | [] => ([], r)
        match digitSpan sr.2 with
        | ([], _) => none
        | (ds, r2) => some (c :: sr.1 ++ ds, r2)
      else some ([], cs)
  | [] => some ([], [])

/-- Optional fraction part of a JSON number literal, then the exponent. -/
def parseFracExp (cs : List Char) : Option (List Char × List Char) :=
  match cs with
  | '.' :: r =>
      match digitSpan r with
      | ([], _) => none
      | (ds, r1) => (parseExpPart r1).map (fun pr => ('.' :: ds ++ pr.1, pr.2))
  | _ => parseExpPart cs

/-- JSON number literal at the head of the input: optional minus, an integer
part with no leading zero, optional fraction and exponent.  Returns the
literal text and the remainder. -/
def parseNumber (cs : List Char) : Option (List Char × List Char) :=
  let sp : List Char × List Char :=
    if cs.head? = some '-' then (['-'], cs.tail) else ([], cs)
  match sp.2 with
  | [] => none
  | c :: r =>
      if c.isDigit then
        let ipr : List Char × List Char :=
          if c = '0' then ([c], r) else (c :: (digitSpan r).1, (digitSpan r).2)
        (parseFracExp ipr.2).map (fun pr => (sp.1 ++ ipr.1 ++ pr.1, pr.2))
      else none

mutual

/-- Recursive-descent JSON value parser with a step budget; the budget
shrinks only on nesting into a construct that consumed at least one input
character, so `length + 1` steps always suffice at the top level. -/
def parseVal : Nat → List Char → Option (JValue × List Char)
  | 0, _ => none
  | Nat.succ fuel, cs0 =>
      match skipWS cs0 with
      | [] => none
      | c :: r =>
          if c = '\x7b' then
            match skipWS r with
            | '\x7d' :: r2 => some (JValue.obj [], r2)
            | _ => parseMembers fuel r []
          else if c = '[' then
            match skipWS r with
            | ']' :: r2 => some (JValue.arr [], r2)
            | _ => parseElems fuel r []
          else if c = '"' then
            (parseStringBody r).map (fun pr => (JValue.str (String.mk pr.1), pr.2))
          else if c = 't' then
            if (strL "rue").isPrefixOf r then some (JValue.bool true, r.drop 3) else none
          else if c = 'f' then
            if (strL "alse").isPrefixOf r then some (JValue.bool false, r.drop 4) else none
          else if c = 'n' then
            if (strL "ull").isPrefixOf r then some (JValue.null, r.drop 3) else none
          else
            (parseNumber (c :: r)).map (fun pr => (JValue.num (String.mk pr.1), pr.2))

/-- Elements of a JSON array after its opening bracket (non-empty case). -/
def parseElems : Nat → List Char → List JValue → Option (JValue × List Char)
  | 0, _, _ => none
  | Nat.succ fuel, cs, acc =>
      match parseVal fuel cs with
      | none => none
      | some (v, r) =>
          match skipWS r with
          | ',' :: r2 => parseElems fuel r2 (acc ++ [v])
          | ']' :: r2 => some (JValue.arr (acc ++ [v]), r2)
          | _ => none

/-- Members of a JSON object after its opening brace (non-empty case). -/
def parseMembers : Nat → List Char → List (String × JValue) → Option (JValue × List Char)
  | 0, _, _ => none
  | Nat.succ fuel, cs, acc =>
      match skipWS cs with
      | '"' :: r =>
          match parseStringBody r with
          | none => none
          | some (kcs, r2) =>
              match skipWS r2 with
              | ':' :: r3 =>
                  match parseVal fuel r3 with
                  | none => none
                  | some (v, r4) =>
                      match skipWS r4 with
                      | ',' :: r5 => parseMembers fuel r5 (setField acc (String.mk kcs) v)
                      | '\x7d' :: r5 => some (JValue.obj (setField acc (String.mk kcs) v), r5)
                      | _ => none
              | _ => none
      | _ => none

end

/-- The whole-document `JSON.parse`: a single value with only whitespace
around it; anything else throws (returns `none`). -/
def parseJson (cs : List Char) : Option JValue :=
  match parseVal (cs.length + 1) cs with
  | some (v, r) => if skipWS r = [] then some v else none
  | none => none

/-- Whitespace for JavaScript `trim()` and the regex class `\s`, restricted
to the ASCII range; the Unicode spaces those also cover never occur in the
claims' inputs. -/
def jsWS (c : Char) : Bool :=
  c = ' ' || c = '\t' || c = '\n' || c = '\x0d' || c = '\x0b' || c = '\x0c'

/-- JavaScript `trim()`. -/
def jsTrim (cs : List Char) : List Char :=
  ((cs.dropWhile jsWS).reverse.dropWhile jsWS).reverse

/-- Extraction step of the Payload Decoder (App.tsx lines 256 and 264):
`raw.trim().match(/^```(?:json)?\s*([\s\S]*?)\s*```$/)?.[1] || raw.trim()`,
rendered operationally.  The anchored lazy regex matches exactly when the
trimmed text opens with a fence (optionally tagged `json`) and ends with a
closing fence; the capture group is then the fenced body with the
whitespace the surrounding `\s*` absorb removed.  An empty capture is falsy
in JavaScript, so the `||` then falls back to the whole trimmed text, as it
does when the regex does not match. -/
def stripFence (raw : List Char) : List Char :=
  let s := jsTrim raw
  if (strL "```").isPrefixOf s then
    let r0 := s.drop 3
    let body := if (strL "json").isPrefixOf r0 then r0.drop 4 else r0
    if (strL "```").isSuffixOf body then
      let cap := jsTrim (body.take (body.length - 3))
      if cap = [] then s else cap
    else s
  else s

/-- Parse step shared by both payload kinds of the Payload Decoder: fence
stripping, then `JSON.parse` (App.tsx lines 256-257 and 264-265). -/
def decodePayload (raw : List Char) : Option JValue := parseJson (stripFence raw)

/-- A payload wrapped in a fenced code block, claim C8's fenced form. -/
def fencedForm (j : List Char) : List Char := strL "```json\n" ++ j ++ strL "\n```"

/-- The bare JSON document of the C8 example. -/
def jsonOpsEmpty : List Char := strL "\x7b\"operations\":[]\x7d"

/-- Truthiness test on the mantissa of a numeric literal: every digit before
the exponent marker being zero makes the value 0, the only falsy number the
JSON grammar can produce. -/
def numTextIsZero (t : String) : Bool :=
  (t.data.takeWhile (fun c => ¬ (c = 'e' ∨ c = 'E'))).all
    (fun c => ¬ c.isDigit ∨ c = '0')

/-- JavaScript falsiness of a decoded JSON value, deciding the `|| []` and
`|| undefined` fallbacks. -/
def jsFalsy : JValue → Bool
  | JValue.null => true
  | JValue.bool b => !b
  | JValue.str s => s = ""
  | JValue.num t => numTextIsZero t
  | JValue.arr _ => false
  | JValue.obj _ => false

/-- Reading a string-typed field off a decoded record, as the applier's
dynamic accesses expect: a field that is absent or holds a non-string value
is treated as absent (such records sit outside the `FileOperation` type the
source's unchecked cast asserts; see the note on `FileOperation`). -/
def strField (v : JValue) (k : String) : Option String :=
  match v with
  | JValue.obj fields =>
      match lookupField fields k with
      | some (JValue.str s) => some s
      | _ => none
  | _ => none

/-- A decoded array element read as a `FileOperation` record. -/
def opOfJValue (v : JValue) : FileOperation :=
  { operation := strField v "operation", path := strField v "path",
    content := strField v "content", newPath := strField v "newPath" }

/-- The access `(JSON.parse(jsonString) as { operations }).operations || []`
(App.tsx line 265): property access on `null` throws a TypeError, carried to
the enclosing catch as a decode failure; on any other non-object value the
property is `undefined`, so the fallback yields the empty batch; on an
object, an absent or falsy field likewise yields the empty batch, and an
array field is read as the operation records.  A truthy non-array field
would be carried through the unchecked cast and then behave as an empty
batch at this round's apply step (its `length` is not a positive number);
it is modelled as the empty batch. -/
def operationsOf : JValue → Except Unit (List FileOperation)
  | JValue.null => Except.error ()
  | JValue.obj fields =>
      match lookupField fields "operations" with
      | none => Except.ok []
      | some fv =>
          if jsFalsy fv then Except.ok []
          else
            match fv with
            | JValue.arr xs => Except.ok (xs.map opOfJValue)
            | _ => Except.ok []
  | _ => Except.ok []

/-- Decoding of the raw operations payload after the marker (App.tsx lines
262-267): fence stripping, `JSON.parse`, then the `operations` access. -/
def decodeOpsPayload (raw : List Char) : Except Unit (List FileOperation) :=
  match parseJson (stripFence raw) with
  | none => Except.error ()
  | some v => operationsOf v

/-- Task status, the discriminated `AITask['status']` of the source. -/
inductive TaskStatus where
  | running
  | completed
  | error
  | pending_confirmation
  | pending_blueprint_approval
  deriving DecidableEq

/-- Outcome of the post-stream decision: terminal status, resulting file
system, decoded batch, decoded blueprint, retained error cause. -/
structure FinishResult where
  status : TaskStatus
  fileSystem : FSNode
  fileOps : List FileOperation
  blueprint : Option JValue
  errorMsg : Option String

/-- Terminal decision of `runAIGeneration` once the stream has ended
(App.tsx lines 244-284): the final marker scan, payload decoding whose
`try`/`catch` rethrows into the outer catch — which records the `error`
status with a retained cause and never touches the file system — and the
publishing step, which applies a non-empty operations batch immediately
only for an autopilot task.  The source interpolates the underlying
exception text into its two failure messages; the model keeps their fixed
prefixes. -/
def finishStream (full : List Char) (isAutoPilot : Bool) (fs : FSNode) : FinishResult :=
  match strIndexOf full blueprintSeparator with
  | some i =>
      let raw := full.drop (i + blueprintSeparator.length)
      match parseJson (stripFence raw) with
      | some bp =>
          { status := TaskStatus.pending_blueprint_approval, fileSystem := fs,
            fileOps := [], blueprint := some bp, errorMsg := none }
      | none =>
          { status := TaskStatus.error, fileSystem := fs, fileOps := [],
            blueprint := none, errorMsg := some "Failed to parse blueprint from AI." }
  | none =>
      match strIndexOf full opsSeparator with
      | some i =>
          let raw := full.drop (i + opsSeparator.length)
          match decodeOpsPayload raw with
          | Except.ok ops =>
              { status := if isAutoPilot then TaskStatus.completed
                          else TaskStatus.pending_confirmation,
                fileSystem := if isAutoPilot = true ∧ 0 < ops.length
                              then applyFileOperations fs ops else fs,
                fileOps := ops, blueprint := none, errorMsg := none }
          | Except.error _ =>
              { status := TaskStatus.error, fileSystem := fs, fileOps := [],
                blueprint := none,
                errorMsg := some "Failed to parse file operations from AI." }
      | none =>
          { status := TaskStatus.completed, fileSystem := fs, fileOps := [],
            blueprint := none, errorMsg := none }

/-- Task record (`AITask` of the source), restricted to the fields the
verified claims read: identity, prompt, status, origin tag, the held batch
(`assistantResponse?.operations`) and the retained error cause.  Timestamps,
conversational content and the decoded blueprint carry no weight in the
claims and are omitted. -/
structure AITask where
  id : String
  userPrompt : String
  status : TaskStatus
  taskType : String
  operations : Option (List FileOperation) := none
  errorMsg : Option String := none

/-- Workspace as the claims see it: the owned file-system tree and the task
list (the source's per-workspace map step is the identity on every other
workspace). -/
structure Workspace where
  fileSystem : FSNode
  tasks : List AITask

/-- Approval of a pending batch, `handleApproveTask` (App.tsx lines
341-351): only a task found in `pending_confirmation` and holding a batch
is applied; its batch goes through the applier and the task completes. -/
def handleApproveTask (ws : Workspace) (taskId : String) : Workspace :=
  match ws.tasks.find? (fun t => t.id == taskId) with
  | none => ws
  | some task =>
      if task.status = TaskStatus.pending_confirmation then
        match task.operations with
        | some ops =>
            { fileSystem := applyFileOperations ws.fileSystem ops,
              tasks := ws.tasks.map (fun t =>
                if t.id == taskId then { t with status := TaskStatus.completed } else t) }
        | none => ws
      else ws

/-- Rejection of a pending batch, `handleRejectTask` (App.tsx lines
353-356): the task completes and nothing else changes. -/
def handleRejectTask (ws : Workspace) (taskId : String) : Workspace :=
  { ws with tasks := ws.tasks.map (fun t =>
      if t.id == taskId then { t with status := TaskStatus.completed } else t) }

/-- An autopilot-origin task currently streaming. -/
def runningAutopilot (t : AITask) : Bool :=
  t.taskType = "autopilot" ∧ t.status = TaskStatus.running

/-- The guard `tasks.some(t => t.type === 'autopilot' && t.status ===
'running')` of `handleAutoPilotTick` (App.tsx line 324). -/
def hasRunningAutopilot (ws : Workspace) : Bool := ws.tasks.any runningAutopilot

/-- The task `handleAutoPilotTick` creates (App.tsx line 327). -/
def newAutopilotTask (taskId : String) : AITask :=
  { id := taskId, userPrompt := "Proactive AI Step", status := TaskStatus.running,
    taskType := "autopilot" }

/-- One tick of the scheduler, `handleAutoPilotTick` (App.tsx lines
321-331): nothing happens while an autopilot task is running, otherwise a
new running autopilot task is prepended. -/
def handleAutoPilotTick (ws : Workspace) (taskId : String) : Workspace :=
  if hasRunningAutopilot ws then ws
  else { ws with tasks := newAutopilotTask taskId :: ws.tasks }

/-- The effect guard of the interval (App.tsx lines 335-339): the periodic
trigger exists only while autopilot mode is on and no autopilot task is
running (an active workspace is assumed present). -/
def intervalEnabled (isAutoPilotOn : Bool) (ws : Workspace) : Bool :=
  isAutoPilotOn && !hasRunningAutopilot ws

/-- One scheduling instant: the tick runs only when the interval exists. -/
def schedulerStep (isAutoPilotOn : Bool) (ws : Workspace) (taskId : String) : Workspace :=
  if intervalEnabled isAutoPilotOn ws then handleAutoPilotTick ws taskId else ws

/-- Number of autopilot-origin tasks currently running. -/
def countRunningAutopilot (ws : Workspace) : Nat := ws.tasks.countP runningAutopilot

/-- The empty root folder. -/
def fsEmpty : FSNode := FSNode.folder []

/-- Example stream whose operations payload is the JSON document `null`. -/
def fullOpsNull : List Char := strL "x ---JSON_OPERATIONS--- null"

/-- Example stream whose operations payload is an empty JSON object. -/
def fullOpsNoField : List Char := strL "x ---JSON_OPERATIONS--- \x7b\x7d"

/-- Example stream carrying one well-formed create operation. -/
def fullOpsOne : List Char :=
  strL "ok ---JSON_OPERATIONS--- \x7b\"operations\":[\x7b\"operation\":\"CREATE_FILE\",\"path\":\"src/x.tsx\",\"content\":\"hi\"\x7d]\x7d"

/-- The operation batch `fullOpsOne` decodes to. -/
def opsOne : List FileOperation :=
  [{ operation := some "CREATE_FILE", path := some "src/x.tsx", content := some "hi" }]

/-- Example stream carrying a blueprint payload. -/
def fullBlueprint : List Char := strL "p ---JSON_BLUEPRINT--- \x7b\"name\":\"app\"\x7d"

/-- Example stream with no marker at all. -/
def fullPlain : List Char := strL "plain answer"

/-- Example stream whose operations payload is not JSON. -/
def fullOpsBad : List Char := strL "x ---JSON_OPERATIONS--- oops"

/-- Example stream whose blueprint payload is not JSON. -/
def fullBlueprintBad : List Char := strL "p ---JSON_BLUEPRINT--- garbage"

/-- Example stream in which the operations marker precedes the blueprint
marker. -/
def fullBothMarkers : List Char :=
  strL "a ---JSON_OPERATIONS--- b ---JSON_BLUEPRINT--- c"

/-- A pending-confirmation user task holding one valid create. -/
def taskPending : AITask :=
  { id := "t1", userPrompt := "p", status := TaskStatus.pending_confirmation,
    taskType := "user", operations := some opsOne }

/-- Workspace holding `taskPending` over the empty tree. -/
def wsPending : Workspace := { fileSystem := fsEmpty, tasks := [taskPending] }

/-- A running autopilot task. -/
def taskAutoRunning : AITask :=
  { id := "t2", userPrompt := "Proactive AI Step", status := TaskStatus.running,
    taskType := "autopilot" }

/-- Workspace in which an autopilot task is currently running. -/
def wsAutoRunning : Workspace := { fileSystem := fsEmpty, tasks := [taskAutoRunning] }

/-- Tree with two root files, used to exercise a failing rename. -/
def t0c1 : FSNode := FSNode.folder [("a", FSNode.file "A"), ("b", FSNode.file "B")]

/-- Rename whose destination parent chain runs through the file `b`: the
source resolves the destination only after deleting the source node. -/
def badRename : FileOperation :=
  { operation := some "RENAME_FILE", path := some "a", newPath := some "b/c" }

/-- Tree with a root file `f`, used to exercise a failing create. -/
def tW1 : FSNode := FSNode.folder [("f", FSNode.file "x")]

/-- Create whose parent chain runs through the file `f`; it fails without
touching the tree. -/
def opBadCreate : FileOperation :=
  { operation := some "CREATE_FILE", path := some "f/a/b", content := some "y" }

/-- Valid create used alongside `opBadCreate`. -/
def opGoodCreate : FileOperation :=
  { operation := some "CREATE_FILE", path := some "ok.txt", content := some "hi" }

/-- Tree with a file at the root name `a`, used against `CREATE_FOLDER`. -/
def t4c : FSNode := FSNode.folder [("a", FSNode.file "X")]

/-- The folder creation aimed at the name the file `a` occupies. -/
def cfOnFile : FileOperation := { operation := some "CREATE_FOLDER", path := some "a" }

/-- Tree that already holds a folder `a`, for the create-folder no-op case. -/
def wT4 : FSNode := FSNode.folder [("a", FSNode.folder [])]

theorem setChild_of_getChild {ch : List (String × FSNode)} {k : String} {c : FSNode}
    (h : getChild ch k = some c) : setChild ch k c = ch := by
  induction ch with
  | nil => simp [getChild] at h
  | cons hd tl ih =>
      obtain ⟨n, v⟩ := hd
      by_cases hk : n = k
      · subst hk
        simp [getChild] at h
        simp [setChild, h]
      · simp [getChild, hk] at h
        simp [setChild, hk, ih h]

theorem walkParent_created_some {α : Type}
    (k : List (String × FSNode) → String → List (String × FSNode) × α) :
    ∀ (p : String) (rest : List String),
      (walkParent k (FSNode.folder []) (p :: rest) true).2.isSome = true := by
  intro p rest
  induction rest generalizing p with
  | nil => simp [walkParent]
  | cons p2 tl ih => simp [walkParent, getChild, ih p2]

theorem walkParent_fail_id {α : Type}
    (k : List (String × FSNode) → String → List (String × FSNode) × α) :
    ∀ (parts : List String) (n : FSNode) (cp : Bool),
      (walkParent k n parts cp).2 = none → (walkParent k n parts cp).1 = n := by
  intro parts
  induction parts with
  | nil => intro n cp _; cases n <;> rfl
  | cons p rest ih =>
      intro n cp hfail
      cases n with
      | file c => rfl
      | folder ch =>
          cases rest with
          | nil => simp [walkParent] at hfail
          | cons p2 tl =>
              cases hc : getChild ch p with
              | some c =>
                  simp only [walkParent, hc] at hfail ⊢
                  have h1 := ih c cp hfail
                  rw [h1, setChild_of_getChild hc]
              | none =>
                  cases cp with
                  | false => simp [walkParent, hc]
                  | true =>
                      exfalso
                      simp only [walkParent, hc, if_true] at hfail
                      have hs := walkParent_created_some k p2 tl
                      simp [hfail] at hs

theorem applyOp_fail_id {t : FSNode} {op : FileOperation}
    (hnr : isRenameOp op = false) (hf : (applyOp t op).2 = false) :
    (applyOp t op).1 = t := by
  unfold isRenameOp at hnr
  unfold applyOp at hf ⊢
  by_cases h1 : op.operation = some "CREATE_FILE" ∨ op.operation = some "UPDATE_FILE"
  · simp only [h1, if_true] at hf ⊢
    cases hp : op.path with
    | none => rfl
    | some p =>
        simp only [hp] at hf ⊢
        apply walkParent_fail_id
        cases hw2 : (walkParent
          (fun ch key => (setChild ch key (FSNode.file (op.content.getD "")), ()))
          t (splitPath p) true).2
        · rfl
        · simp [hw2] at hf
  · simp only [h1, if_false] at hf ⊢
    by_cases h2 : op.operation = some "CREATE_FOLDER"
    · simp only [h2, if_true] at hf ⊢
      cases hp : op.path with
      | none => rfl
      | some p =>
          simp only [hp] at hf ⊢
          apply walkParent_fail_id
          cases hw2 : (walkParent
            (fun ch key =>
              (match getChild ch key with
               | some _ => ch
               | none => setChild ch key (FSNode.folder []), ()))
            t (splitPath p) true).2
          · rfl
          · simp [hw2] at hf
    · simp only [h2, if_false] at hf ⊢
      by_cases h3 : op.operation = some "DELETE_FILE" ∨ op.operation = some "DELETE_FOLDER"
      · simp only [h3, if_true] at hf ⊢
        cases hp : op.path with
        | none => rfl
        | some p => simp [hp] at hf
      · simp only [h3, if_false] at hf ⊢
        by_cases h4 : op.operation = some "RENAME_FILE" ∨ op.operation = some "RENAME_FOLDER"
        · exact absurd h4 (by simpa using hnr)
        · simp [h4] at hf

theorem applyFileOperations_append (t : FSNode) (l1 l2 : List FileOperation) :
    applyFileOperations t (l1 ++ l2) = applyFileOperations (applyFileOperations t l1) l2 := by
  simp [applyFileOperations, List.foldl_append]

theorem walkParent_found_noop {α : Type}
    (k : List (String × FSNode) → String → List (String × FSNode) × α)
    (hk : ∀ ch key c, getChild ch key = some c → (k ch key).1 = ch) :
    ∀ (parts : List String) (t n : FSNode), findGo parts t = some n → parts ≠ [] →
      (walkParent k t parts true).1 = t ∧ (walkParent k t parts true).2.isSome = true := by
  intro parts
  induction parts with
  | nil => intro t n _ hne; exact absurd rfl hne
  | cons p rest ih =>
      intro t n hfind _
      cases t with
      | file c => simp [findGo] at hfind
      | folder ch =>
          cases hc : getChild ch p with
          | none => simp [findGo, hc] at hfind
          | some c =>
              cases rest with
              | nil =>
                  constructor
                  · show FSNode.folder (k ch p).1 = FSNode.folder ch
                    rw [hk ch p c hc]
                  · rfl
              | cons p2 tl =>
                  simp only [findGo, hc] at hfind
                  have hih := ih c n hfind (by simp)
                  constructor
                  · simp only [walkParent, hc]
                    rw [hih.1, setChild_of_getChild hc]
                  · simp only [walkParent, hc]
                    exact hih.2

/-- Claim C1, counterexample.  The claim asserts that each individual
operation either fully succeeds or has no effect on the resulting tree, and
that a batch of one invalid operation and N valid ones equals applying only
the N valid ones: on `t0c1` the single rename `badRename` fails (its
destination parent chain runs through the file `b`), yet the batch of just
this invalid operation and zero valid ones changes the tree — the source
deletes the node at `a` before resolving the destination. -/
theorem C1_counterexample :
    (applyOp t0c1 badRename).2 = false ∧
    applyFileOperations t0c1 [badRename] ≠ t0c1 := by
  refine ⟨rfl, ?_⟩
  intro h
  have h2 : hasChild (applyFileOperations t0c1 [badRename]) "a" = hasChild t0c1 "a" := by
    rw [h]
  have h3 : hasChild (applyFileOperations t0c1 [badRename]) "a" = false := rfl
  have h4 : hasChild t0c1 "a" = true := rfl
  rw [h3, h4] at h2
  exact Bool.noConfusion h2

/-- Claim C1, amended.  Applying a batch has per-operation failure
isolation: a failing operation is skipped and does not abort the remaining
operations, and each individual creation, update, deletion — and every
non-rename operation in general — either fully succeeds or has no effect on
the resulting tree, so a batch containing one invalid non-rename operation
and N valid ones yields a tree identical to applying only the N valid ones,
in order.  (A rename whose destination cannot be resolved is the exception:
it has already deleted its source node, see `C1_counterexample`.) -/
theorem C1_amended (t : FSNode) (l1 l2 : List FileOperation) (op : FileOperation)
    (hnr : isRenameOp op = false)
    (hf : (applyOp (applyFileOperations t l1) op).2 = false) :
    applyFileOperations t (l1 ++ op :: l2) = applyFileOperations t (l1 ++ l2) := by
  rw [applyFileOperations_append, applyFileOperations_append]
  have h1 : applyFileOperations (applyFileOperations t l1) (op :: l2)
      = applyFileOperations ((applyOp (applyFileOperations t l1) op).1) l2 := by
    simp [applyFileOperations]
  rw [h1, applyOp_fail_id hnr hf]

/-- Claim C1, witness for the amended theorem: on `tW1` the create at
`f/a/b` fails (the component `f` is a file), and the batch of it plus one
valid create equals the batch of the valid create alone. -/
theorem C1_amended_witness :
    isRenameOp opBadCreate = false ∧
    (applyOp (applyFileOperations tW1 []) opBadCreate).2 = false ∧
    applyFileOperations tW1 ([] ++ opBadCreate :: [opGoodCreate])
      = applyFileOperations tW1 ([] ++ [opGoodCreate]) :=
  ⟨rfl, rfl, C1_amended tW1 [] [opGoodCreate] opBadCreate rfl rfl⟩

/-- Claim C4, counterexample.  The claim asserts that `CREATE_FOLDER` fails
(is recorded as that operation's failure) when a file already occupies the
final name: on `t4c`, where the file `a` occupies the target name, the
operation is instead a silent success — the per-operation failure flag is
`true` (nothing was thrown or logged) and the tree is unchanged. -/
theorem C4_counterexample :
    (applyOp t4c cfOnFile).2 = true ∧ (applyOp t4c cfOnFile).1 = t4c :=
  ⟨rfl, rfl⟩

theorem walkParent_file_prefix_fail {α : Type}
    (kk : List (String × FSNode) → String → List (String × FSNode) × α) :
    ∀ (parts : List String) (t : FSNode) (k : Nat) (c : String) (cp : Bool),
      k < parts.length → findGo (parts.take k) t = some (FSNode.file c) →
      (walkParent kk t parts cp).2 = none := by
  intro parts
  induction parts with
  | nil =>
      intro t k c cp hk _
      exact absurd hk (by simp)
  | cons p rest ih =>
      intro t k c cp hk hfind
      cases k with
      | zero =>
          simp only [List.take_zero, findGo] at hfind
          have ht : t = FSNode.file c := by injection hfind
          subst ht
          rfl
      | succ kp =>
          have hkp : kp < rest.length := Nat.lt_of_succ_lt_succ (by simpa using hk)
          rw [List.take_succ_cons] at hfind
          cases t with
          | file cf => rfl
          | folder ch =>
              cases hc : getChild ch p with
              | none => simp [findGo, hc] at hfind
              | some c0 =>
                  simp only [findGo, hc] at hfind
                  cases rest with
                  | nil => exact absurd hkp (by simp)
                  | cons p2 tl =>
                      simp only [walkParent, hc]
                      exact ih c0 kp c cp hkp hfind

/-- Claim C4, amended.  A `CREATE_FOLDER` operation is a no-op (successful,
tree unchanged) whenever any node — folder or file — already exists at that
exact non-empty path, and it is recorded as that operation's failure,
leaving the tree unaffected, when the path is invalid: when the path is
empty, or when some strict prefix of its components resolves to a file
(missing intermediates are auto-created, so these are the only invalid
cases). -/
theorem C4_amended (t n : FSNode) (p : String) :
    (splitPath p ≠ [] → findNodeByPath p t = some n →
       applyOp t { operation := some "CREATE_FOLDER", path := some p } = (t, true)) ∧
    ((applyOp t { operation := some "CREATE_FOLDER", path := some p }).2 = false →
       (applyOp t { operation := some "CREATE_FOLDER", path := some p }).1 = t) ∧
    (splitPath p = [] →
       applyOp t { operation := some "CREATE_FOLDER", path := some p } = (t, false)) ∧
    (∀ k c, k < (splitPath p).length →
       findGo ((splitPath p).take k) t = some (FSNode.file c) →
       applyOp t { operation := some "CREATE_FOLDER", path := some p } = (t, false)) := by
  refine ⟨?_, ?_, ?_, ?_⟩
  · intro hne hfind
    have h := walkParent_found_noop
      (fun ch key =>
        (match getChild ch key with
         | some _ => ch
         | none => setChild ch key (FSNode.folder []), ()))
      (fun ch key c hc => by simp [hc])
      (splitPath p) t n hfind hne
    show ((walkParent
        (fun ch key =>
          (match getChild ch key with
           | some _ => ch
           | none => setChild ch key (FSNode.folder []), ()))
        t (splitPath p) true).1,
      (walkParent
        (fun ch key =>
          (match getChild ch key with
           | some _ => ch
           | none => setChild ch key (FSNode.folder []), ()))
        t (splitPath p) true).2.isSome) = (t, true)
    rw [h.1, h.2]
  · intro hf
    exact @applyOp_fail_id t { operation := some "CREATE_FOLDER", path := some p } rfl hf
  · intro hsplit
    show ((walkParent
        (fun ch key =>
          (match getChild ch key with
           | some _ => ch
           | none => setChild ch key (FSNode.folder []), ()))
        t (splitPath p) true).1,
      (walkParent
        (fun ch key =>
          (match getChild ch key with
           | some _ => ch
           | none => setChild ch key (FSNode.folder []), ()))
        t (splitPath p) true).2.isSome) = (t, false)
    rw [hsplit]
    simp [walkParent]
  · intro k c hk hfind
    have h2 := walkParent_file_prefix_fail
      (fun ch key =>
        (match getChild ch key with
         | some _ => ch
         | none => setChild ch key (FSNode.folder []), ()))
      (splitPath p) t k c true hk hfind
    have h1 := walkParent_fail_id
      (fun ch key =>
        (match getChild ch key with
         | some _ => ch
         | none => setChild ch key (FSNode.folder []), ()))
      (splitPath p) t true h2
    show ((walkParent
        (fun ch key =>
          (match getChild ch key with
           | some _ => ch
           | none => setChild ch key (FSNode.folder []), ()))
        t (splitPath p) true).1,
      (walkParent
        (fun ch key =>
          (match getChild ch key with
           | some _ => ch
           | none => setChild ch key (FSNode.folder []), ()))
        t (splitPath p) true).2.isSome) = (t, false)
    rw [h1, h2]
    rfl

/-- Claim C4, witness for the amended theorem: creating the folder `a` on a
tree already holding folder `a` is a successful no-op; creating `a/b` on a
tree where `a` is a file, and creating at the empty path, are recorded
failures leaving the tree unchanged. -/
theorem C4_amended_witness :
    (splitPath "a" ≠ [] ∧ findNodeByPath "a" wT4 = some (FSNode.folder []) ∧
      applyOp wT4 { operation := some "CREATE_FOLDER", path := some "a" } = (wT4, true)) ∧
    (splitPath "" = [] ∧
      applyOp wT4 { operation := some "CREATE_FOLDER", path := some "" } = (wT4, false)) ∧
    (1 < (splitPath "a/b").length ∧
      findGo ((splitPath "a/b").take 1) t4c = some (FSNode.file "X") ∧
      applyOp t4c { operation := some "CREATE_FOLDER", path := some "a/b" }
        = (t4c, false)) :=
  ⟨⟨by decide, rfl, (C4_amended wT4 (FSNode.folder []) "a").1 (by decide) rfl⟩,
   ⟨rfl, (C4_amended wT4 (FSNode.folder []) "").2.2.1 rfl⟩,
   ⟨by decide, rfl,
    (C4_amended t4c (FSNode.folder []) "a/b").2.2.2 1 "X" (by decide) rfl⟩⟩

theorem sIdx_some_occ : ∀ (hay needle : List Char) (j : Nat),
    strIndexOf hay needle = some j → needle.isPrefixOf (hay.drop j) = true := by
  intro hay
  induction hay with
  | nil =>
      intro needle j h
      by_cases hp : needle.isPrefixOf ([] : List Char) = true
      · simp only [strIndexOf, hp, if_true] at h
        cases h
        simpa using hp
      · simp only [strIndexOf] at h
        rw [if_neg hp] at h
        cases h
  | cons c t ih =>
      intro needle j h
      by_cases hp : needle.isPrefixOf (c :: t) = true
      · simp only [strIndexOf, hp, if_true] at h
        cases h
        simpa using hp
      · simp only [strIndexOf] at h
        rw [if_neg hp] at h
        cases hs : strIndexOf t needle with
        | none => rw [hs] at h; cases h
        | some j' =>
            rw [hs] at h
            simp at h
            subst h
            simpa using ih needle j' hs

theorem occ_sIdx_isSome : ∀ (hay needle : List Char) (j : Nat),
    needle.isPrefixOf (hay.drop j) = true → (strIndexOf hay needle).isSome = true := by
  intro hay
  induction hay with
  | nil =>
      intro needle j h
      simp only [List.drop_nil] at h
      simp [strIndexOf, h]
  | cons c t ih =>
      intro needle j h
      by_cases hp : needle.isPrefixOf (c :: t) = true
      · simp [strIndexOf, hp]
      · cases j with
        | zero => simp only [List.drop_zero] at h; exact absurd h hp
        | succ j' =>
            simp only [List.drop_succ_cons] at h
            have := ih needle j' h
            simp only [strIndexOf]
            rw [if_neg hp]
            simpa using this

theorem occ_mono_of_pref {p t needle : List Char} (hpt : p <+: t) {j : Nat}
    (h : needle.isPrefixOf (p.drop j) = true) : needle.isPrefixOf (t.drop j) = true := by
  rw [ List.isPrefixOf_iff_prefix] at h ⊢
  exact h.trans (hpt.drop j)

theorem occ_lt_length {hay needle : List Char} (hne : needle ≠ []) {j : Nat}
    (h : needle.isPrefixOf (hay.drop j) = true) : j < hay.length := by
  by_contra hge
  push_neg at hge
  rw [List.drop_eq_nil_of_le hge] at h
  cases needle with
  | nil => exact hne rfl
  | cons a b => simp [List.isPrefixOf] at h

theorem take_eq_of_pref {p t : List Char} (h : p <+: t) {n : Nat} (hn : n ≤ p.length) :
    p.take n = t.take n := by
  obtain ⟨r, rfl⟩ := h
  rw [List.take_append_eq_append_take, Nat.sub_eq_zero_of_le hn]
  simp

theorem join_take_pref (chunks : List (List Char)) (k : Nat) :
    (chunks.take k).flatten <+: chunks.flatten := by
  conv_rhs => rw [← List.take_append_drop k chunks]
  rw [List.flatten_append]
  exact List.prefix_append _ _

/-- Claim C5.  The Stream Framer's classification is a function of the
concatenated accumulated text only: for every way of splitting the example
stream into an ordered sequence of chunks, at every step at which the
operations marker is fully present in the accumulated text, the
conversational prefix is exactly "hello " and the pending payload kind is
the operations kind. -/
theorem C5_framer_split_independent (chunks : List (List Char))
    (h : chunks.flatten = t5target) (k : Nat)
    (hm : (strIndexOf ((chunks.take k).flatten) opsSeparator).isSome = true) :
    (frame ((chunks.take k).flatten)).1 = strL "hello " ∧
    (frame ((chunks.take k).flatten)).2 = some PayloadKind.operations := by
  have hpref : (chunks.take k).flatten <+: t5target := h ▸ join_take_pref chunks k
  obtain ⟨j, hj⟩ := Option.isSome_iff_exists.mp hm
  have hocc : opsSeparator.isPrefixOf (((chunks.take k).flatten).drop j) = true :=
    sIdx_some_occ _ opsSeparator j hj
  have hocct : opsSeparator.isPrefixOf (t5target.drop j) = true := occ_mono_of_pref hpref hocc
  have hjlt : j < 33 := by
    have h2 := occ_lt_length (by decide) hocct
    rw [show t5target.length = 33 from rfl] at h2
    exact h2
  have hj6 : j = 6 := by
    have hdec : ∀ i : Fin 33, opsSeparator.isPrefixOf (t5target.drop i.val) = true →
        i.val = 6 := by decide
    exact hdec ⟨j, hjlt⟩ hocct
  subst hj6
  have hbp : strIndexOf ((chunks.take k).flatten) blueprintSeparator = none := by
    cases hb : strIndexOf ((chunks.take k).flatten) blueprintSeparator with
    | none => rfl
    | some j' =>
        exfalso
        have hocc2 := sIdx_some_occ _ blueprintSeparator j' hb
        have hocct2 := occ_mono_of_pref hpref hocc2
        have hlt2 : j' < 33 := by
          have h2 := occ_lt_length (by decide) hocct2
          rw [show t5target.length = 33 from rfl] at h2
          exact h2
        have hdec : ∀ i : Fin 33,
            ¬ blueprintSeparator.isPrefixOf (t5target.drop i.val) = true := by decide
        exact hdec ⟨j', hlt2⟩ hocct2
  have h6lt : 6 < ((chunks.take k).flatten).length := occ_lt_length (by decide) hocc
  constructor
  · simp only [frame, hbp, hj]
    rw [take_eq_of_pref hpref (Nat.le_of_lt h6lt)]
    rfl
  · simp only [frame, hbp, hj]

/-- Claim C5, witness: a split of the example stream that cuts the
operations marker in half, observed after both chunks arrived. -/
theorem C5_framer_split_independent_witness :
    [t5chunkA, t5chunkB].flatten = t5target ∧
    (strIndexOf (([t5chunkA, t5chunkB].take 2).flatten) opsSeparator).isSome = true ∧
    (frame (([t5chunkA, t5chunkB].take 2).flatten)).1 = strL "hello " :=
  ⟨by decide, by decide,
   (C5_framer_split_independent [t5chunkA, t5chunkB] (by decide) 2 (by decide)).1⟩

/-- Claim C2.  On stream completion, when the winning payload decodes, the
terminal status and file-system effect are: blueprint marker won — status
`pending_blueprint_approval`, file system untouched, for either origin;
operations marker won — autopilot origin applies the batch immediately and
completes, user origin moves to `pending_confirmation` with the file system
untouched; no marker — status `completed`, file system untouched. -/
theorem C2_terminal_decision (full : List Char) (fs : FSNode) :
    (∀ i bp, strIndexOf full blueprintSeparator = some i →
       parseJson (stripFence (full.drop (i + blueprintSeparator.length))) = some bp →
       ∀ iap, (finishStream full iap fs).status = TaskStatus.pending_blueprint_approval ∧
         (finishStream full iap fs).fileSystem = fs) ∧
    (∀ i ops, strIndexOf full blueprintSeparator = none →
       strIndexOf full opsSeparator = some i →
       decodeOpsPayload (full.drop (i + opsSeparator.length)) = Except.ok ops →
       ((finishStream full true fs).status = TaskStatus.completed ∧
        (finishStream full true fs).fileSystem = applyFileOperations fs ops) ∧
       ((finishStream full false fs).status = TaskStatus.pending_confirmation ∧
        (finishStream full false fs).fileSystem = fs)) ∧
    (strIndexOf full blueprintSeparator = none → strIndexOf full opsSeparator = none →
       ∀ iap, (finishStream full iap fs).status = TaskStatus.completed ∧
         (finishStream full iap fs).fileSystem = fs) := by
  refine ⟨?_, ?_, ?_⟩
  · intro i bp hb hp iap
    simp [finishStream, hb, hp]
  · intro i ops hb ho hdec
    refine ⟨⟨?_, ?_⟩, ?_, ?_⟩
    · simp [finishStream, hb, ho, hdec]
    · simp only [finishStream, hb, ho, hdec]
      by_cases hl : 0 < ops.length
      · simp [hl]
      · have hnil : ops = [] := List.length_eq_zero.mp (Nat.le_zero.mp (Nat.not_lt.mp hl))
        subst hnil
        simp [applyFileOperations]
    · simp [finishStream, hb, ho, hdec]
    · simp [finishStream, hb, ho, hdec]
  · intro hb ho iap
    simp [finishStream, hb, ho]

/-- Claim C2, witness: the blueprint, autopilot-operations, user-operations
and no-marker cases at concrete streams. -/
theorem C2_terminal_decision_witness :
    ((finishStream fullBlueprint false fsEmpty).status
        = TaskStatus.pending_blueprint_approval ∧
      (finishStream fullBlueprint false fsEmpty).fileSystem = fsEmpty) ∧
    (((finishStream fullOpsOne true fsEmpty).status = TaskStatus.completed ∧
      (finishStream fullOpsOne true fsEmpty).fileSystem
        = applyFileOperations fsEmpty opsOne) ∧
     ((finishStream fullOpsOne false fsEmpty).status = TaskStatus.pending_confirmation ∧
      (finishStream fullOpsOne false fsEmpty).fileSystem = fsEmpty)) ∧
    ((finishStream fullPlain true fsEmpty).status = TaskStatus.completed ∧
     (finishStream fullPlain true fsEmpty).fileSystem = fsEmpty) :=
  ⟨(C2_terminal_decision fullBlueprint fsEmpty).1 2
      (JValue.obj [("name", JValue.str "app")]) rfl rfl false,
   (C2_terminal_decision fullOpsOne fsEmpty).2.1 3 opsOne rfl rfl rfl,
   (C2_terminal_decision fullPlain fsEmpty).2.2 rfl rfl true⟩

/-- Claim C3.  For a task found in `pending_confirmation` and holding an
operation batch: rejecting completes the task and leaves the tree store
unchanged, and approving completes the task and replaces the tree store
with exactly the applier's result on that batch. -/
theorem C3_approve_reject (ws : Workspace) (taskId : String) (task : AITask)
    (ops : List FileOperation)
    (hfind : ws.tasks.find? (fun t => t.id == taskId) = some task)
    (hst : task.status = TaskStatus.pending_confirmation)
    (hops : task.operations = some ops) :
    (handleRejectTask ws taskId).fileSystem = ws.fileSystem ∧
    (∀ t, t ∈ (handleRejectTask ws taskId).tasks → t.id = taskId →
        t.status = TaskStatus.completed) ∧
    (handleApproveTask ws taskId).fileSystem = applyFileOperations ws.fileSystem ops ∧
    (∀ t, t ∈ (handleApproveTask ws taskId).tasks → t.id = taskId →
        t.status = TaskStatus.completed) := by
  refine ⟨rfl, ?_, ?_, ?_⟩
  · intro t ht hid
    simp only [handleRejectTask, List.mem_map] at ht
    obtain ⟨x, hx, rfl⟩ := ht
    by_cases h : (x.id == taskId) = true
    · simp [h]
    · rw [if_neg h] at hid ⊢
      exact absurd (beq_iff_eq.mpr hid) h
  · simp [handleApproveTask, hfind, hst, hops]
  · intro t ht hid
    simp only [handleApproveTask, hfind, hst, hops, if_pos, List.mem_map] at ht
    obtain ⟨x, hx, rfl⟩ := ht
    by_cases h : (x.id == taskId) = true
    · simp [h]
    · rw [if_neg h] at hid ⊢
      exact absurd (beq_iff_eq.mpr hid) h

/-- Claim C3, witness: one pending user task with one valid create over the
empty tree. -/
theorem C3_approve_reject_witness :
    wsPending.tasks.find? (fun t => t.id == "t1") = some taskPending ∧
    taskPending.status = TaskStatus.pending_confirmation ∧
    taskPending.operations = some opsOne ∧
    (handleRejectTask wsPending "t1").fileSystem = wsPending.fileSystem ∧
    (handleApproveTask wsPending "t1").fileSystem
      = applyFileOperations wsPending.fileSystem opsOne :=
  ⟨rfl, rfl, rfl,
   (C3_approve_reject wsPending "t1" taskPending opsOne rfl rfl rfl).1,
   (C3_approve_reject wsPending "t1" taskPending opsOne rfl rfl rfl).2.2.1⟩

/-- Claim C6.  When both markers occur in the accumulated text, the
blueprint marker wins regardless of the two positions (blueprint is checked
first), the conversational prefix is everything before the blueprint
marker, and no operations batch is ever decoded for such a response — at
most one payload kind is active. -/
theorem C6_blueprint_priority (acc : List Char) (i : Nat)
    (hb : strIndexOf acc blueprintSeparator = some i)
    (ho : (strIndexOf acc opsSeparator).isSome = true) :
    (frame acc).2 = some PayloadKind.blueprint ∧
    (frame acc).1 = acc.take i ∧
    ∀ (iap : Bool) (fs : FSNode), (finishStream acc iap fs).fileOps = [] := by
  refine ⟨?_, ?_, ?_⟩
  · simp [frame, hb]
  · simp [frame, hb]
  · intro iap fs
    simp only [finishStream, hb]
    cases parseJson (stripFence (acc.drop (i + blueprintSeparator.length))) <;> rfl

/-- Claim C6, witness: a stream in which the operations marker comes first
and the blueprint marker later; the blueprint still wins and the
conversational prefix runs up to the blueprint marker. -/
theorem C6_blueprint_priority_witness :
    strIndexOf fullBothMarkers blueprintSeparator = some 26 ∧
    (strIndexOf fullBothMarkers opsSeparator).isSome = true ∧
    (frame fullBothMarkers).2 = some PayloadKind.blueprint ∧
    (frame fullBothMarkers).1 = fullBothMarkers.take 26 :=
  ⟨rfl, rfl, (C6_blueprint_priority fullBothMarkers 26 rfl rfl).1,
   (C6_blueprint_priority fullBothMarkers 26 rfl rfl).2.1⟩

/-- Claim C7.  When decoding the payload after the winning marker fails,
the task ends in the `error` status carrying the retained human-readable
cause, and the file system is untouched; the failure is absorbed by the
task's catch rather than escaping (the decision function is total and
returns the error outcome). -/
theorem C7_decode_failure_is_error (full : List Char) (fs : FSNode) :
    (∀ i, strIndexOf full blueprintSeparator = some i →
       parseJson (stripFence (full.drop (i + blueprintSeparator.length))) = none →
       ∀ iap, (finishStream full iap fs).status = TaskStatus.error ∧
         (finishStream full iap fs).fileSystem = fs ∧
         (finishStream full iap fs).errorMsg = some "Failed to parse blueprint from AI.") ∧
    (∀ i, strIndexOf full blueprintSeparator = none →
       strIndexOf full opsSeparator = some i →
       decodeOpsPayload (full.drop (i + opsSeparator.length)) = Except.error () →
       ∀ iap, (finishStream full iap fs).status = TaskStatus.error ∧
         (finishStream full iap fs).fileSystem = fs ∧
         (finishStream full iap fs).errorMsg
           = some "Failed to parse file operations from AI.") := by
  constructor
  · intro i hb hp iap
    simp [finishStream, hb, hp]
  · intro i hb ho hdec iap
    simp [finishStream, hb, ho, hdec]

/-- Claim C7, witness: unparseable operations and blueprint payloads. -/
theorem C7_decode_failure_is_error_witness :
    ((finishStream fullBlueprintBad true fsEmpty).status = TaskStatus.error ∧
     (finishStream fullBlueprintBad true fsEmpty).fileSystem = fsEmpty ∧
     (finishStream fullBlueprintBad true fsEmpty).errorMsg
       = some "Failed to parse blueprint from AI.") ∧
    ((finishStream fullOpsBad false fsEmpty).status = TaskStatus.error ∧
     (finishStream fullOpsBad false fsEmpty).fileSystem = fsEmpty ∧
     (finishStream fullOpsBad false fsEmpty).errorMsg
       = some "Failed to parse file operations from AI.") :=
  ⟨(C7_decode_failure_is_error fullBlueprintBad fsEmpty).1 2 rfl rfl true,
   (C7_decode_failure_is_error fullOpsBad fsEmpty).2 2 rfl rfl rfl false⟩

/-- Claim C9.  The autopilot scheduler is single-flight: a tick observing a
running autopilot task creates nothing (the workspace is unchanged, so
there are never two autopilot tasks running at once — the count of running
autopilot tasks stays at most one), and the periodic trigger does not fire
at all while autopilot mode is off. -/
theorem C9_single_flight (ws : Workspace) (taskId : String) :
    (hasRunningAutopilot ws = true → ∀ isOn, schedulerStep isOn ws taskId = ws) ∧
    (schedulerStep false ws taskId = ws) ∧
    (countRunningAutopilot ws ≤ 1 →
      ∀ isOn, countRunningAutopilot (schedulerStep isOn ws taskId) ≤ 1) := by
  refine ⟨?_, ?_, ?_⟩
  · intro h isOn
    simp [schedulerStep, intervalEnabled, h]
  · simp [schedulerStep, intervalEnabled]
  · intro hle isOn
    by_cases h : hasRunningAutopilot ws = true
    · simp [schedulerStep, intervalEnabled, h, hle]
    · have h0 : countRunningAutopilot ws = 0 := by
        refine List.countP_eq_zero.mpr ?_
        intro a ha hcontra
        exact h (List.any_eq_true.mpr ⟨a, ha, hcontra⟩)
      by_cases hi : intervalEnabled isOn ws = true
      · unfold schedulerStep
        rw [if_pos hi]
        unfold handleAutoPilotTick
        rw [if_neg h]
        have h2 : List.countP runningAutopilot ws.tasks = 0 := h0
        have hnew : runningAutopilot (newAutopilotTask taskId) = true := rfl
        simp [countRunningAutopilot, List.countP_cons, h2, hnew]
      · unfold schedulerStep
        rw [if_neg hi]
        exact hle

/-- Claim C9, witness: a tick over a workspace with a running autopilot
task changes nothing, and a tick with the mode off changes nothing. -/
theorem C9_single_flight_witness :
    hasRunningAutopilot wsAutoRunning = true ∧
    schedulerStep true wsAutoRunning "t3" = wsAutoRunning ∧
    schedulerStep false wsAutoRunning "t3" = wsAutoRunning ∧
    countRunningAutopilot wsAutoRunning ≤ 1 ∧
    countRunningAutopilot (schedulerStep true wsAutoRunning "t3") ≤ 1 :=
  ⟨rfl, (C9_single_flight wsAutoRunning "t3").1 rfl true,
   (C9_single_flight wsAutoRunning "t3").2.1,
   by decide,
   (C9_single_flight wsAutoRunning "t3").2.2 (by decide) true⟩

/-- Claim C10, counterexample.  The claim asserts that an operations
payload parsing as valid JSON without an `operations` field decodes to the
empty batch and never enters the error status: the payload `null` is valid
JSON with no `operations` field, yet the source evaluates
`JSON.parse("null").operations`, the property access on `null` throws a
TypeError, and the task ends in the `error` status. -/
theorem C10_counterexample :
    parseJson (stripFence (strL " null")) = some JValue.null ∧
    decodeOpsPayload (strL " null") = Except.error () ∧
    (finishStream fullOpsNull false fsEmpty).status = TaskStatus.error :=
  ⟨rfl, rfl, rfl⟩

/-- Claim C10, amended.  When the operations payload parses as valid JSON
to a value other than `null` that does not contain an `operations` field
(or whose field is `null`), decoding yields the empty batch rather than a
parse failure: the task still reaches `pending_confirmation` (user origin)
or `completed` (autopilot origin), no error status is entered, and the
file system is unchanged. -/
theorem C10_amended (full : List Char) (fs : FSNode) (i : Nat) (v : JValue)
    (hb : strIndexOf full blueprintSeparator = none)
    (ho : strIndexOf full opsSeparator = some i)
    (hp : parseJson (stripFence (full.drop (i + opsSeparator.length))) = some v)
    (hnn : v ≠ JValue.null)
    (hfield : (∀ f, v ≠ JValue.obj f) ∨
      ∃ f, v = JValue.obj f ∧
        (lookupField f "operations" = none ∨ lookupField f "operations" = some JValue.null)) :
    ∀ iap, (finishStream full iap fs).status
        = (if iap then TaskStatus.completed else TaskStatus.pending_confirmation) ∧
      (finishStream full iap fs).fileSystem = fs ∧
      (finishStream full iap fs).fileOps = [] := by
  intro iap
  have hops : operationsOf v = Except.ok [] := by
    rcases hfield with hno | ⟨f, rfl, hf⟩
    · cases v with
      | null => exact absurd rfl hnn
      | bool b => rfl
      | num t => rfl
      | str s => rfl
      | arr xs => rfl
      | obj f => exact absurd rfl (hno f)
    · rcases hf with hf | hf <;> simp [operationsOf, hf, jsFalsy]
  have hdec : decodeOpsPayload (full.drop (i + opsSeparator.length)) = Except.ok [] := by
    simp [decodeOpsPayload, hp, hops]
  refine ⟨?_, ?_, ?_⟩ <;> simp [finishStream, hb, ho, hdec]

/-- Claim C10, witness for the amended theorem: the payload `{}` is valid
JSON without an `operations` field; a user-origin task reaches
`pending_confirmation` over an unchanged tree with an empty batch. -/
theorem C10_amended_witness :
    strIndexOf fullOpsNoField blueprintSeparator = none ∧
    strIndexOf fullOpsNoField opsSeparator = some 2 ∧
    parseJson (stripFence (fullOpsNoField.drop (2 + opsSeparator.length)))
      = some (JValue.obj []) ∧
    (finishStream fullOpsNoField false fsEmpty).status = TaskStatus.pending_confirmation ∧
    (finishStream fullOpsNoField false fsEmpty).fileSystem = fsEmpty ∧
    (finishStream fullOpsNoField false fsEmpty).fileOps = [] := by
  have h := C10_amended fullOpsNoField fsEmpty 2 (JValue.obj []) rfl rfl rfl
    (by intro hcontra; cases hcontra)
    (Or.inr ⟨[], rfl, Or.inl rfl⟩) false
  exact ⟨rfl, rfl, rfl, h.1, h.2.1, h.2.2⟩

theorem dropWhile_append_left {p : Char → Bool} (l₁ l₂ : List Char)
    (h : l₁.dropWhile p ≠ []) : (l₁ ++ l₂).dropWhile p = l₁.dropWhile p ++ l₂ := by
  induction l₁ with
  | nil => exact absurd rfl h
  | cons a t ih =>
      by_cases hp : p a = true
      · rw [List.cons_append, List.dropWhile_cons_of_pos hp, List.dropWhile_cons_of_pos hp]
        rw [List.dropWhile_cons_of_pos hp] at h
        exact ih h
      · rw [List.cons_append, List.dropWhile_cons_of_neg (by simp [hp]),
          List.dropWhile_cons_of_neg (by simp [hp])]
        rfl

theorem dropWhile_append_nil {p : Char → Bool} {l₁ : List Char} (l₂ : List Char)
    (h : l₁.dropWhile p = []) : (l₁ ++ l₂).dropWhile p = l₂.dropWhile p := by
  induction l₁ with
  | nil => rfl
  | cons a t ih =>
      by_cases hp : p a = true
      · rw [List.cons_append, List.dropWhile_cons_of_pos hp]
        rw [List.dropWhile_cons_of_pos hp] at h
        exact ih h
      · rw [List.dropWhile_cons_of_neg (by simp [hp])] at h
        simp at h

theorem jsTrim_cons_ws {c : Char} (hc : jsWS c = true) (l : List Char) :
    jsTrim (c :: l) = jsTrim l := by
  unfold jsTrim
  rw [List.dropWhile_cons_of_pos hc]

theorem jsTrim_snoc_ws {c : Char} (hc : jsWS c = true) (l : List Char) :
    jsTrim (l ++ [c]) = jsTrim l := by
  unfold jsTrim
  cases hd : l.dropWhile jsWS with
  | nil =>
      rw [dropWhile_append_nil _ hd]
      simp [List.dropWhile_cons_of_pos hc]
  | cons a t =>
      rw [dropWhile_append_left _ _ (by rw [hd]; simp), hd, List.reverse_append]
      simp [List.dropWhile_cons_of_pos hc]

theorem jsTrim_eq_self {l : List Char} (h1 : ∀ a, l.head? = some a → jsWS a = false)
    (h2 : ∀ a, l.getLast? = some a → jsWS a = false) : jsTrim l = l := by
  unfold jsTrim
  have hd : l.dropWhile jsWS = l := by
    cases l with
    | nil => rfl
    | cons a t =>
        rw [List.dropWhile_cons_of_neg]
        simp [h1 a rfl]
  rw [hd]
  have hr : l.reverse.dropWhile jsWS = l.reverse := by
    cases hrev : l.reverse with
    | nil => rfl
    | cons a t =>
        rw [List.dropWhile_cons_of_neg]
        have hga : l.getLast? = some a := by
          rw [← List.head?_reverse, hrev]
          rfl
        simp [h2 a hga]
  rw [hr, List.reverse_reverse]

theorem fencedForm_assoc (j : List Char) :
    fencedForm j = (strL "```json\n" ++ j ++ strL "\n``") ++ ['\x60'] := by
  show strL "```json\n" ++ j ++ strL "\n```" = _
  rw [show (strL "\n```" : List Char) = strL "\n``" ++ ['\x60'] from rfl,
    ← List.append_assoc]

theorem jsTrim_fenced (j : List Char) : jsTrim (fencedForm j) = fencedForm j := by
  apply jsTrim_eq_self
  · intro a ha
    have h3 : some '\x60' = some a := ha
    cases h3
    rfl
  · intro a ha
    rw [fencedForm_assoc, List.getLast?_concat] at ha
    cases ha
    rfl

theorem parseNumber_backtick (r : List Char) : parseNumber ('\x60' :: r) = none := by
  simp [parseNumber, Char.isDigit]

theorem parseVal_backtick (fuel : Nat) (r : List Char) :
    parseVal fuel ('\x60' :: r) = none := by
  cases fuel with
  | zero => rfl
  | succ f =>
      show parseVal (f + 1) ('\x60' :: r) = none
      simp only [parseVal]
      rw [show skipWS ('\x60' :: r) = '\x60' :: r from
        List.dropWhile_cons_of_neg (by decide)]
      simp [parseNumber_backtick]

theorem parseJson_backtick (r : List Char) : parseJson ('\x60' :: r) = none := by
  unfold parseJson
  rw [parseVal_backtick]

theorem parseJson_of_tick_head {s : List Char}
    (hpre : (strL "```").isPrefixOf s = true) : parseJson s = none := by
  rw [ List.isPrefixOf_iff_prefix] at hpre
  obtain ⟨r, hr⟩ := hpre
  rw [← hr]
  exact parseJson_backtick _

theorem stripFence_bare {j : List Char}
    (h : (parseJson (jsTrim j)).isSome = true) : stripFence j = jsTrim j := by
  unfold stripFence
  by_cases hp : (strL "```").isPrefixOf (jsTrim j) = true
  · exfalso
    rw [parseJson_of_tick_head hp] at h
    exact Bool.noConfusion h
  · rw [if_neg hp]

theorem stripFence_fenced {j : List Char} (hne : jsTrim j ≠ []) :
    stripFence (fencedForm j) = jsTrim j := by
  have hbody : ((fencedForm j).drop 3).drop 4 = '\n' :: (j ++ strL "\n```") := rfl
  have hsuf : (strL "```").isSuffixOf ('\n' :: (j ++ strL "\n```")) = true := by
    rw [ List.isSuffixOf_iff_suffix]
    refine ⟨'\n' :: (j ++ ['\n']), ?_⟩
    rw [List.cons_append, List.append_assoc]
    rfl
  have hlen : ('\n' :: (j ++ strL "\n```")).length - 3 = j.length + 2 := by
    simp only [List.length_cons, List.length_append,
      show (strL "\n```").length = 4 from rfl]
    omega
  have htake : ('\n' :: (j ++ strL "\n```")).take (j.length + 2) = '\n' :: (j ++ ['\n']) := by
    rw [show j.length + 2 = (j.length + 1) + 1 from rfl, List.take_succ_cons,
      List.take_append_eq_append_take,
      List.take_of_length_le (Nat.le_succ _),
      show j.length + 1 - j.length = 1 from by omega,
      show (strL "\n```").take 1 = ['\n'] from rfl]
  have hcap : jsTrim ('\n' :: (j ++ ['\n'])) = jsTrim j := by
    rw [show ('\n' :: (j ++ ['\n'])) = '\n' :: (j ++ ['\n']) from rfl]
    rw [jsTrim_cons_ws (by decide), jsTrim_snoc_ws (by decide)]
  simp only [stripFence, jsTrim_fenced,
    show (strL "```").isPrefixOf (fencedForm j) = true from rfl, if_true,
    show (strL "json").isPrefixOf ((fencedForm j).drop 3) = true from rfl,
    hbody, hsuf, hlen, htake, hcap]
  rw [if_neg hne]

/-- Claim C8.  The Payload Decoder yields the same parsed structured value
whether the JSON payload is wrapped in a fenced code block or given bare:
for any JSON text that parses, decoding the fenced form and the bare form
produce identical results — both for the raw parse shared by the two
payload kinds and for the full operations decoding. -/
theorem C8_fenced_equals_bare (j : List Char)
    (h : (parseJson (jsTrim j)).isSome = true) :
    decodePayload (fencedForm j) = decodePayload j ∧
    decodeOpsPayload (fencedForm j) = decodeOpsPayload j := by
  have hne : jsTrim j ≠ [] := by
    intro hc
    rw [hc] at h
    rw [show parseJson ([] : List Char) = none from rfl] at h
    exact Bool.noConfusion h
  have h1 := stripFence_fenced hne
  have h2 := stripFence_bare h
  constructor
  · show parseJson (stripFence (fencedForm j)) = parseJson (stripFence j)
    rw [h1, h2]
  · show decodeOpsPayload (fencedForm j) = decodeOpsPayload j
    unfold decodeOpsPayload
    rw [h1, h2]

/-- Claim C8, witness: the fenced and bare forms of an empty operations
document decode identically. -/
theorem C8_fenced_equals_bare_witness :
    (parseJson (jsTrim jsonOpsEmpty)).isSome = true ∧
    decodePayload (fencedForm jsonOpsEmpty) = decodePayload jsonOpsEmpty ∧
    decodeOpsPayload (fencedForm jsonOpsEmpty) = decodeOpsPayload jsonOpsEmpty :=
  ⟨rfl, (C8_fenced_equals_bare jsonOpsEmpty rfl).1,
   (C8_fenced_equals_bare jsonOpsEmpty rfl).2⟩

end QS
